import Mathlib

/-!
Verification development for the bmap-based image copying module
(`bmaptools/BmapCopy.py`).  The Python source is shallowly embedded below:
pure fragments become Lean functions, the stateful copy pipeline becomes
explicit state passing over a session record, Python exceptions become an
explicit exception type threaded through `Except`, and the two OS
collaborators (the image or destination file objects and the sysfs block
device controls) become small explicit state records.  Machine integers of
the source are arbitrary-precision Python ints, so they are embedded as
`Int` directly; Python 2 division of ints is floor division, embedded as
`Int.fdiv`.
-/

set_option maxHeartbeats 1000000

namespace BmapCopyModel

/-- Python 2 `/` on ints is floor division. -/
def pydiv (a b : Int) : Int := Int.fdiv a b

/-- Python truthiness of an attribute holding either `None` or an int:
`None` and `0` are falsy, everything else truthy
(used for `if self.image_size:`, `if self.blocks_cnt:`, ...). -/
def truthyOpt : Option Int → Bool
  | none => false
  | some v => v != 0

/-- The Python exceptions that can travel through the embedded code.
`Error` is the single exception class the module itself defines
("we basically throw human-readable problem description in case of
errors"); the others are Python built-ins that the source can let
escape (`int()` failures, `None` attribute accesses, I/O failures,
`assert`, `%`-formatting of `None`, float division by zero). -/
inductive PyExc where
  | Error (msg : String)
  | valueError (msg : String)
  | attributeError (msg : String)
  | ioError (msg : String)
  | typeError (msg : String)
  | zeroDivisionError
  | assertionError
deriving Repr, DecidableEq

/-- Is an exception an instance of the module's own `Error` class? -/
def isBmapError : PyExc → Bool
  | .Error _ => true
  | _ => false

/-- Characters Python `str.strip()` removes. -/
def isPyspace (c : Char) : Bool :=
  c = ' ' || c = '\t' || c = '\n' || c = '\r' || c = '\x0b' || c = '\x0c'

/-- Python `str.strip()`: drop whitespace from both ends.  (Implemented on
the character list so that it reduces in the kernel.) -/
def pystrip (s : String) : String :=
  String.mk (((s.data.dropWhile isPyspace).reverse.dropWhile isPyspace).reverse)

instance {a b : Type} [DecidableEq a] [DecidableEq b] : DecidableEq (Except a b)
  | .ok x, .ok y =>
    if h : x = y then .isTrue (by rw [h]) else .isFalse (fun hh => by cases hh; exact h rfl)
  | .error x, .error y =>
    if h : x = y then .isTrue (by rw [h]) else .isFalse (fun hh => by cases hh; exact h rfl)
  | .ok _, .error _ => .isFalse (fun hh => by cases hh)
  | .error _, .ok _ => .isFalse (fun hh => by cases hh)

/-- Helper for `str.split(sep, 1)`: split at the first occurrence only. -/
def splitOnceAux (c : Char) : List Char → List Char → List String
  | [], acc => [String.mk acc.reverse]
  | x :: xs, acc =>
    if x = c then [String.mk acc.reverse, String.mk xs]
    else splitOnceAux c xs (x :: acc)

/-- Python `s.split(c, 1)`: one or two parts. -/
def splitOnce (c : Char) (s : String) : List String := splitOnceAux c s.data []

/-- Value of a nonempty all-digit character list, `none` otherwise. -/
def digitsVal (l : List Char) : Option Nat :=
  if l.isEmpty then none
  else if l.all Char.isDigit then
    some (l.foldl (fun a ch => a * 10 + (ch.toNat - 48)) 0)
  else none

/-- Python 2 `int(s)` on a str: strip whitespace, optional sign, base-10
digits; raises `ValueError` otherwise. -/
def pyint (s : String) : Except PyExc Int :=
  let t := pystrip s
  match t.data with
  | '-' :: ds =>
    match digitsVal ds with
    | some v => .ok (-(v : Int))
    | none => .error (.valueError ("invalid literal for int with base 10: " ++ s))
  | '+' :: ds =>
    match digitsVal ds with
    | some v => .ok (v : Int)
    | none => .error (.valueError ("invalid literal for int with base 10: " ++ s))
  | ds =>
    match digitsVal ds with
    | some v => .ok (v : Int)
    | none => .error (.valueError ("invalid literal for int with base 10: " ++ s))

/-- `element.text` access: a missing element (or missing text) is `None`,
and the subsequent `.strip()` raises `AttributeError`. -/
def textOf : Option String → Except PyExc String
  | none => .error (.attributeError "NoneType object has no attribute strip")
  | some t => .ok t

/-- The highest supported bmap format version (`SUPPORTED_BMAP_VERSION = 1`). -/
def SUPPORTED_BMAP_VERSION : Int := 1

/-- One `<Range>` element of the bmap XML: its text (`None` for an empty
element) and its optional `sha1` attribute. -/
structure XmlRange where
  text : Option String
  sha1 : Option String
deriving Repr, DecidableEq

/-- The interesting content of a well-formed bmap XML tree, as seen through
the `ElementTree` accesses the source performs: the root `version`
attribute, the text of the three scalar elements (each `none` when the
element is absent or empty), and the `<Range>` elements of `<BlockMap>`. -/
structure BmapXml where
  version : Option String
  blockSizeText : Option String
  blocksCountText : Option String
  mappedCountText : Option String
  ranges : List XmlRange
deriving Repr, DecidableEq

/-- A bmap document handed to `ElementTree.parse`: either malformed markup
(`ParseError` with some message) or a well-formed tree.  XML lexing itself
is the external `ElementTree` collaborator. -/
inductive BmapDoc where
  | malformed (err : String)
  | wellFormed (x : BmapXml)
deriving Repr, DecidableEq

/-- The `self.*` attributes of a copy session that the embedded operations
read and write, together with the explicit state of the files involved.
Attributes that the constructor leaves at `None` are `Option`s.  The
human-readable size strings (external `human_size` collaborator) are
omitted. -/
structure SrcFile where
  /-- Byte contents of the (already decompressed) image stream. -/
  data : List Nat
  /-- Current stream position. -/
  pos : Int
  /-- Position at which a `read` raises `IOError`, modelling an I/O
  failure of the underlying file object; `none` for a healthy file. -/
  failAt : Option Int
deriving Repr, DecidableEq

/-- Destination file state: contents, position, and failure switches for
its `write`, `flush` and `fsync` operations. -/
structure DestFile where
  data : List Nat
  pos : Int
  write_fail : Bool
  flush_fail : Bool
  fsync_fail : Bool
deriving Repr, DecidableEq

/-- Copy session state (the `self` of `BmapCopy`). -/
structure Session where
  block_size : Int
  blocks_cnt : Option Int
  mapped_cnt : Option Int
  image_size : Option Int
  mapped_size : Option Int
  /-- Derived percentage; a Python float in the source, embedded as an
  exact rational (no claim depends on float rounding). -/
  mapped_percent : Option ℚ
  /-- Stored version text; the source stores the int `0` when no bmap is
  given, rendered here as `"0"`. -/
  bmap_version : Option String
  batch_blocks : Int
  dest_fsync_watermark : Option Int
  image : SrcFile
  dest : DestFile
  /-- `none` when no bmap file was supplied; otherwise the bmap file
  position and the `<Range>` elements of its parsed XML tree. -/
  bmap : Option (Int × List XmlRange)
deriving Repr, DecidableEq

/-- Session with everything unset, mirroring the attribute zeroing at the
top of `BmapCopy.__init__`. -/
def empty_session : Session where
  block_size := 0
  blocks_cnt := none
  mapped_cnt := none
  image_size := none
  mapped_size := none
  mapped_percent := none
  bmap_version := none
  batch_blocks := 0
  dest_fsync_watermark := none
  image := ⟨[], 0, none⟩
  dest := ⟨[], 0, false, false, false⟩
  bmap := none

/-- `BmapCopy._initialize_sizes`: fallback size attributes when there is
no bmap ("the values are ... just set to something reasonable").  The
blocks count is `(image_size + block_size - 1) / block_size` with Python
floor division. -/
def init_sizes (s : Session) (image_size : Int) : Session :=
  let bc := pydiv (image_size + s.block_size - 1) s.block_size
  { s with
    image_size := some image_size
    blocks_cnt := some bc
    mapped_cnt := some bc
    mapped_size := some image_size }

/-- The no-bmap branch of `BmapCopy.__init__` for an uncompressed image of
known size: version 0, block size 4096, 100 percent mapped, sizes from
`_initialize_sizes`, and `_batch_blocks = _batch_bytes / block_size`
with `_batch_bytes = 1024 * 1024`. -/
def init_no_bmap (s : Session) (image_size : Int) : Session :=
  let s1 := { s with
    bmap_version := some "0"
    block_size := 4096
    mapped_percent := some 100 }
  let s2 := init_sizes s1 image_size
  { s2 with batch_blocks := pydiv (1024 * 1024) s2.block_size }

/-- `BmapCopy._parse_bmap`: parse the bmap file and set the `bmap_*`
attributes.  Malformed markup becomes the module's `Error`; a version
attribute whose major part is not an int escapes as `ValueError`; a major
version above `SUPPORTED_BMAP_VERSION` is an `Error`; a missing scalar
element escapes as `AttributeError` (from `None.text`-style access);
non-integer scalar text escapes as `ValueError`.  The `<Range>` elements
are NOT examined here: they are only read lazily by `_get_block_ranges`
during `copy()`.  Error messages keep the wording of the source without
the interpolated file names. -/
def parse_bmap (s : Session) (doc : BmapDoc) : Except PyExc Session :=
  match doc with
  | .malformed err =>
    .error (.Error ("cannot parse the bmap file which should be a proper XML file: " ++ err))
  | .wellFormed x => do
    let ver := x.version.getD "None"
    let major ← pyint ((splitOnce '.' ver).headD "")
    if major > SUPPORTED_BMAP_VERSION then
      throw (.Error ("only bmap format version up to 1 is supported, version "
        ++ toString major ++ " is not supported"))
    let bsT ← textOf x.blockSizeText
    let block_size ← pyint (pystrip bsT)
    let bcT ← textOf x.blocksCountText
    let blocks_cnt ← pyint (pystrip bcT)
    let mcT ← textOf x.mappedCountText
    let mapped_cnt ← pyint (pystrip mcT)
    if blocks_cnt = 0 then throw .zeroDivisionError
    pure { s with
      bmap_version := some ver
      block_size := block_size
      blocks_cnt := some blocks_cnt
      mapped_cnt := some mapped_cnt
      image_size := some (blocks_cnt * block_size)
      mapped_size := some (mapped_cnt * block_size)
      mapped_percent := some ((mapped_cnt * 100 : ℚ) / (blocks_cnt : ℚ)) }

/-- Range-text handling of `BmapCopy._get_block_ranges` for one `<Range>`
element text: strip, split at the first `-`, strip the parts, convert with
`int()`; a pair with `first > last` raises the module's `Error`
("bad range (first > last) ..."). -/
def parse_range_text (raw : String) : Except PyExc (Int × Int) := do
  let blocks_range := pystrip raw
  let split := (splitOnce '-' blocks_range).map pystrip
  let first ← pyint (split.headD "")
  match split with
  | [_, s2] => do
    let last ← pyint s2
    if first > last then
      throw (.Error ("bad range (first > last): " ++ blocks_range))
    else
      pure (first, last)
  | _ => pure (first, first)

/-- A `(first, last, sha1)` triplet as yielded by `_get_block_ranges`. -/
abbrev Triplet := Int × Int × Option String

/-- `BmapCopy._get_block_ranges` in the with-bmap case, as generator
semantics: the list of triplets yielded before the generator either
finishes (`none`) or raises (`some` exception).  Triplets yielded before a
bad range are still delivered to the consumer of the generator. -/
def get_block_ranges : List XmlRange → List Triplet × Option PyExc
  | [] => ([], none)
  | x :: rest =>
    match (do
        let t ← textOf x.text
        parse_range_text t : Except PyExc (Int × Int)) with
    | .error e => ([], some e)
    | .ok (first, last) =>
      let (ts, ge) := get_block_ranges rest
      ((first, last, x.sha1) :: ts, ge)

/-- Loop body of `BmapCopy._get_batches`, unrolled on a fuel counter so
that it is structurally recursive and computes by reduction: the source
loops `while first + batch_blocks - 1 <= last`, emitting a full batch and
advancing `first`, then emits the remainder `last - first + 1` if it is
nonzero. -/
def get_batches_go (batch_blocks : Int) : Nat → Int → Int → List (Int × Int × Int)
  | 0, _, _ => []
  | fuel + 1, first, last =>
    if first + batch_blocks - 1 ≤ last then
      (first, first + batch_blocks - 1, batch_blocks) ::
        get_batches_go batch_blocks fuel (first + batch_blocks) last
    else
      -- the source rebinds batch_blocks := last - first + 1 here; inlined
      if last - first + 1 ≠ 0 then
        [(first, first + (last - first + 1) - 1, last - first + 1)]
      else []

/-- `BmapCopy._get_batches`: split the block range `[first, last]` into
`(start, end, length)` batches of at most `batch_blocks` blocks.  With
`batch_blocks > 0` each loop iteration shrinks `last + 1 - first` by at
least one, so `(last + 1 - first).toNat + 1` units of fuel always
outlast the loop (`get_batches_go_fuel` below).  When `batch_blocks <= 0`
the source's while loop never terminates (impossible in practice since
`_batch_blocks` is positive); the embedding returns `[]` there to stay
total. -/
def get_batches (batch_blocks first last : Int) : List (Int × Int × Int) :=
  if batch_blocks ≤ 0 then []
  else get_batches_go batch_blocks ((last + 1 - first).toNat + 1) first last

/-- An item pushed onto `_batch_queue` by the producer: a
`("range", start, end, length, buf)` tuple, an `("error", exc_info)`
record, or the `None` end-of-stream sentinel. -/
inductive QItem where
  | range (start stop length : Int) (buf : List Nat)
  | error (e : PyExc)
  | none_
deriving Repr, DecidableEq

/-- `file.read(n)` on the image: raises `IOError` at the configured
failure position, otherwise returns up to `n` bytes from the current
position and advances it by the number of bytes actually returned. -/
def src_read (f : SrcFile) (n : Int) : Except PyExc (List Nat × SrcFile) :=
  if f.failAt = some f.pos then .error (.ioError "read error")
  else
    let buf := (f.data.drop f.pos.toNat).take n.toNat
    .ok (buf, { f with pos := f.pos + buf.length })

/-- How the batch loop of `_get_data` ended for one range: all batches
processed, stopped on a zero-byte read (after pushing `None`), or an
exception was raised. -/
inductive LoopOut where
  | normal
  | stopped
  | failed (e : PyExc)
deriving Repr, DecidableEq

/-- The inner batch loop of `BmapCopy._get_data` for one block range:
read each batch, stop on an empty read, re-derive `length`/`end` from the
bytes actually read, update the running checksum accumulator when `track`
(i.e. `verify and sha1`), and push the batch.  A read failure becomes the
module's `Error` (raised, to be forwarded by the enclosing handler). -/
def batch_loop (track : Bool) (bs : Int) :
    SrcFile → List (Int × Int × Int) → List Nat → List QItem × LoopOut × List Nat
  | _, [], acc => ([], .normal, acc)
  | img, (start, stop, length) :: rest, acc =>
    match src_read img (length * bs) with
    | .error _ =>
      ([], .failed (.Error ("error while reading blocks " ++ toString start ++ "-"
        ++ toString stop ++ " of the image file")), acc)
    | .ok (buf, img1) =>
      if buf.isEmpty then ([QItem.none_], .stopped, acc)
      else
        let acc1 := if track then acc ++ buf else acc
        let length1 := pydiv ((buf.length : Int) + bs - 1) bs
        let stop1 := start + length1 - 1
        let (items, out, acc2) := batch_loop track bs img1 rest acc1
        (QItem.range start stop1 length1 buf :: items, out, acc2)

/-- The `Error` raised on a checksum mismatch for a range. -/
def checksum_err (first last : Int) (calcd declared : String) : PyExc :=
  .Error ("checksum mismatch for blocks range " ++ toString first ++ "-" ++ toString last
    ++ ": calculated " ++ calcd ++ ", should be " ++ declared)

/-- One iteration of the outer range loop of `_get_data`: seek the image
to `first * block_size`, run the batch loop, and at normal completion of
the range compare the accumulated digest with the declared one when
`verify and sha1`.  `H` is the external SHA1 collaborator (`hashlib`),
mapping the accumulated bytes to a hex digest. -/
def produce_range (H : List Nat → String) (verify : Bool) (bs bb : Int)
    (img : SrcFile) (t : Triplet) : List QItem × LoopOut :=
  let img0 := { img with pos := t.1 * bs }
  let track := verify && t.2.2.isSome
  let (items, out, acc) := batch_loop track bs img0 (get_batches bb t.1 t.2.1) []
  match out with
  | .normal =>
    match t.2.2 with
    | some c =>
      if verify && (H acc != c) then
        (items, .failed (checksum_err t.1 t.2.1 (H acc) c))
      else (items, .normal)
    | none => (items, .normal)
  | o => (items, o)

/-- `BmapCopy._get_data` as the sequence of items it pushes onto the
queue, given the triplets the range generator yields and the exception it
raises afterwards, if any (`_get_block_ranges` raises lazily, so triplets
yielded before the bad range are still processed).  A zero-byte read
pushes `None` and returns from the whole function; any exception is
caught by the blanket handler, pushed as an `("error", ...)` record, and
followed by the final `None` of line 427. -/
def get_data (H : List Nat → String) (verify : Bool) (bs bb : Int) (img : SrcFile) :
    List Triplet → Option PyExc → List QItem
  | [], none => [QItem.none_]
  | [], some e => [QItem.error e, QItem.none_]
  | t :: rest, ge =>
    match produce_range H verify bs bb img t with
    | (items, .stopped) => items
    | (items, .failed e) => items ++ [QItem.error e, QItem.none_]
    | (items, .normal) => items ++ get_data H verify bs bb img rest ge

/-- The no-bmap, unknown-size branch of `_get_block_ranges` generates
contiguous `_batch_blocks`-sized ranges forever; the producer stops it at
the first zero-byte read.  The embedding unrolls it to `fuel` ranges,
always called with more ranges than a finite image can fill. -/
def synthetic_ranges (bb : Int) : Nat → Int → List Triplet
  | 0, _ => []
  | n + 1, first => (first, first + bb - 1, none) :: synthetic_ranges bb n (first + bb)

/-- `BmapCopy._get_block_ranges` dispatch: with a bmap read the `<Range>`
elements; without one, a single whole-image range when the blocks count
is known (truthy), else the unbounded synthetic stream. -/
def session_ranges (s : Session) : List Triplet × Option PyExc :=
  match s.bmap with
  | none =>
    if truthyOpt s.blocks_cnt then ([(0, s.blocks_cnt.getD 0 - 1, none)], none)
    else (synthetic_ranges s.batch_blocks (s.image.data.length + 2) 0, none)
  | some (_, xrs) => get_block_ranges xrs

/-- Everything the producer thread of `copy()` pushes onto the queue. -/
def copy_items (H : List Nat → String) (verify : Bool) (s : Session) : List QItem :=
  let (ts, ge) := session_ranges s
  get_data H verify s.block_size s.batch_blocks s.image ts ge

/-- Writing `buf` at byte offset `pos` of a seekable file: bytes before
the offset are kept, a gap beyond the current end reads back as zeros,
bytes after the written region are kept. -/
def list_overlay (data : List Nat) (pos : Nat) (buf : List Nat) : List Nat :=
  data.take pos ++ List.replicate (pos - data.length) 0 ++ buf
    ++ data.drop (pos + buf.length)

/-- `BmapCopy.sync`: `os.fsync` on the destination, wrapped into the
module's `Error` on failure. -/
def sync_dest (d : DestFile) : Except PyExc Unit :=
  if d.fsync_fail then .error (.Error "cannot synchronize the destination file")
  else .ok ()

/-- The consumer loop of `BmapCopy.copy`: dequeue until the `None`
sentinel, re-raise a forwarded error record, and for each batch check the
`assert`, seek, possibly fsync at the watermark, write, and count the
blocks written.  The result is the destination state and
`blocks_written`.  An empty list never arises from the producer (see the
`get_data` theorems); in the source the consumer would block in
`queue.get` forever, which has no counterpart value, so the embedding
maps it to an unreachable error. -/
def consume (bs : Int) (wm : Option Int) :
    List QItem → DestFile → Int → Int → Except PyExc (DestFile × Int)
  | [], _, _, _ => .error (.Error "queue.get would block forever")
  | QItem.none_ :: _, dest, bw, _ => .ok (dest, bw)
  | QItem.error e :: _, _, _, _ => .error e
  | QItem.range start stop length buf :: rest, dest, bw, fsync_last =>
    if (length * bs) < (buf.length : Int) then .error .assertionError
    else
      let dest1 := { dest with pos := start * bs }
      let doSync := truthyOpt wm && decide (fsync_last + wm.getD 0 ≤ bw)
      let fsync_last1 := if doSync then bw else fsync_last
      if doSync && dest1.fsync_fail then
        .error (.Error "cannot synchronize the destination file")
      else if dest1.write_fail then
        .error (.Error ("error while writing blocks " ++ toString start ++ "-"
          ++ toString stop ++ " of the destination"))
      else
        let dest2 := { dest1 with
          data := list_overlay dest1.data (start * bs).toNat buf
          pos := start * bs + buf.length }
        consume bs wm rest dest2 (bw + length) fsync_last1

/-- The post-loop phase of `copy()`: initialize the size attributes if the
image size was unknown (falsy). -/
def size_init (s : Session) (bw : Int) : Session :=
  if ¬ truthyOpt s.image_size then init_sizes s (bw * s.block_size) else s

/-- Continuation of the post-loop phase: the sanity check that exactly
`mapped_cnt` blocks were written.  With `mapped_cnt` still `None` the
Python comparison succeeds (int vs None differ) and the `%u` formatting
of `None` raises `TypeError`. -/
def size_check (s : Session) (bw : Int) : Except PyExc Session :=
  match (size_init s bw).mapped_cnt with
  | some m =>
    if bw ≠ m then
      .error (.Error ("wrote " ++ toString bw ++ " blocks, but should have "
        ++ toString m ++ " - inconsistent bmap file"))
    else .ok (size_init s bw)
  | none => .error (.typeError "int format requires a number, not NoneType")

/-- `BmapCopy.copy(sync, verify)`: save the three stream positions, run
the producer and the consumer, do the size sanity check, flush, fsync if
requested, and restore the saved positions.  The bmap file is never
repositioned by the copy loop itself, so seeking it back to the saved
position leaves the stored position unchanged. -/
def copy (H : List Nat → String) (snc verify : Bool) (s : Session) :
    Except PyExc (Session × Int) :=
  let image_pos := s.image.pos
  let dest_pos := s.dest.pos
  let items := copy_items H verify s
  match consume s.block_size s.dest_fsync_watermark items s.dest 0 0 with
  | .error e => .error e
  | .ok (dest1, blocks_written) =>
    match size_check s blocks_written with
    | .error e => .error e
    | .ok s1 =>
      if dest1.flush_fail then .error (.Error "cannot flush the destination file")
      else
        match (if snc then sync_dest dest1 else .ok ()) with
        | .error e => .error e
        | .ok () =>
          .ok ({ s1 with
            image := { s1.image with pos := image_pos }
            dest := { dest1 with pos := dest_pos } }, blocks_written)

/-- The capacity guard of `BmapBdevCopy.__init__`: when the image size is
known (truthy) and the device is smaller, raise the module's `Error`
before any copying. -/
def check_capacity (image_size : Option Int) (bdev_size : Int) : Except PyExc Unit :=
  if truthyOpt image_size then
    if bdev_size < image_size.getD 0 then
      .error (.Error ("the image file has size " ++ toString (image_size.getD 0)
        ++ " and it will not fit the block device which has " ++ toString bdev_size
        ++ " capacity"))
    else .ok ()
  else .ok ()

/-- State of the two sysfs controls of the destination block device
(`queue/scheduler` and `bdi/max_ratio`), with independent IOError
switches for the read-modify step of `_tune_block_device` and the write
step of `_restore_bdev_settings`.  Writes to these sysfs attributes
replace the stored value (sysfs store semantics). -/
structure Bdev where
  sched : String
  ratio_val : String
  sched_tune_fail : Bool
  ratio_tune_fail : Bool
  sched_restore_fail : Bool
  ratio_restore_fail : Bool
deriving Repr, DecidableEq

/-- Index of the `[` chosen by the greedy regex `.*\[(.+)\].*`: the last
`[` that still leaves at least one character and a `]` after it. -/
def bracketOpen (l : List Char) : Option Nat :=
  ((List.range l.length).filter (fun i =>
    l.getD i ' ' == '[' &&
      (List.range l.length).any (fun j => decide (i + 2 ≤ j) && l.getD j ' ' == ']'))).getLast?

/-- Index of the `]` the greedy `(.+)` stretches to: the last `]` after
the chosen `[`. -/
def bracketClose (l : List Char) (i : Nat) : Option Nat :=
  ((List.range l.length).filter (fun j =>
    decide (i + 2 ≤ j) && l.getD j ' ' == ']')).getLast?

/-- `re.match(r".*\[(.+)\].*", contents).group(1)`: the text between the
brackets (`none` when the regex does not match, in which case `.group`
raises `AttributeError` in the source). -/
def extract_bracketed (s : String) : Option String :=
  match bracketOpen s.data with
  | none => none
  | some i =>
    match bracketClose s.data i with
    | none => none
    | some j => some (String.mk ((s.data.drop (i + 1)).take (j - i - 1)))

/-- `BmapBdevCopy._tune_block_device`: switch the scheduler to `noop` and
remember the old one (parsed out of the `[...]` brackets of the file
contents), then lower `bdi/max_ratio` to 1 and remember the old value.
Either IOError is swallowed by returning early.  Returns the new device
state, the two captured old values (`self.old_scheduler_value`,
`self.old_max_ratio_value`), and the exception that escapes when the
bracket regex does not match (`None.group` raises `AttributeError` after
the scheduler file was already overwritten). -/
def tune_block_device (d : Bdev) : Bdev × Option String × Option String × Option PyExc :=
  if d.sched_tune_fail then (d, none, none, none)
  else
    let contents := d.sched
    let d1 := { d with sched := "noop" }
    match extract_bracketed contents with
    | none => (d1, none, none, some (.attributeError "NoneType object has no attribute group"))
    | some old_sched =>
      if d.ratio_tune_fail then (d1, some old_sched, none, none)
      else ({ d1 with ratio_val := "1" }, some old_sched, some d.ratio_val, none)

/-- `BmapBdevCopy._restore_bdev_settings`: write back each captured value;
an IOError while writing the scheduler makes the function return, which
also skips the max_ratio restoration.  Never raises.  Besides the new
device state it reports whether a scheduler write and a max_ratio write
were attempted. -/
def restore_bdev_settings (d : Bdev) (old_sched old_ratio_v : Option String) :
    Bdev × Bool × Bool :=
  match old_sched with
  | some v =>
    if d.sched_restore_fail then (d, true, false)
    else
      let d1 := { d with sched := v }
      match old_ratio_v with
      | some r =>
        if d1.ratio_restore_fail then (d1, true, true)
        else ({ d1 with ratio_val := r }, true, true)
      | none => (d1, true, false)
  | none =>
    match old_ratio_v with
    | some r =>
      if d.ratio_restore_fail then (d, false, true)
      else ({ d with ratio_val := r }, false, true)
    | none => (d, false, false)

/-- `BmapBdevCopy.copy`: tune the device, run the base copy, and on ANY
exception restore the captured settings before re-raising.  On a normal
successful return of the base copy no restoration happens (the source has
`try ... except: restore; raise` with no `else`/`finally`).  The result
pairs the outcome of the base copy with the final device state. -/
def bdev_copy (H : List Nat → String) (snc verify : Bool) (s : Session) (d : Bdev) :
    Except PyExc (Session × Int) × Bdev :=
  let (d1, old_sched, old_ratio_v, tune_exc) := tune_block_device d
  match tune_exc with
  | some e => (.error e, (restore_bdev_settings d1 old_sched old_ratio_v).1)
  | none =>
    match copy H snc verify s with
    | .ok res => (.ok res, d1)
    | .error e => (.error e, (restore_bdev_settings d1 old_sched old_ratio_v).1)

/-! ### Concrete fixtures used by witnesses and counterexamples -/

/-- A 2-block image with a bmap of one unchecksummed range `0-1`,
block size 1 byte, on which `copy` succeeds. -/
def sOk : Session := { empty_session with
  block_size := 1
  batch_blocks := 2
  blocks_cnt := some 2
  mapped_cnt := some 2
  image_size := some 2
  mapped_size := some 2
  image := ⟨[9, 9], 0, none⟩
  dest := ⟨[0, 0], 0, false, false, false⟩
  bmap := some (7, [⟨some "0-1", none⟩]) }

/-- A toy stand-in for the external SHA1 collaborator: the decimal
rendering of the byte sum. -/
def Hsum : List Nat → String := fun l => toString (l.foldl (· + ·) 0)

/-- Like `sOk` but the range declares the digest `"99"`, which does not
match `Hsum [9, 9] = "18"`. -/
def sBad : Session := { sOk with bmap := some (7, [⟨some "0-1", some "99"⟩]) }

/-- A session whose bmap claims 2 mapped blocks but whose single range
`0-0` only yields 1 block: the size sanity check must fire. -/
def sMis : Session := { sOk with
  image := ⟨[5], 0, none⟩
  blocks_cnt := some 2
  image_size := some 2
  bmap := some (0, [⟨some "0", none⟩]) }

/-- A healthy block device before tuning: scheduler file showing `cfq`
selected, max_ratio 20, no induced IOErrors. -/
def dOk : Bdev := ⟨"noop deadline [cfq]", "20", false, false, false, false⟩

/-- A tuned device (`noop`/`1`) whose scheduler restore write raises
IOError. -/
def dStuck : Bdev := ⟨"noop", "1", false, false, true, false⟩

/-- A bmap document whose only range is `20-10` (first > last) but whose
markup, version and scalar fields are all fine. -/
def doc2010 : BmapDoc :=
  .wellFormed ⟨some "1.3", some "4096", some "100", some "20", [⟨some "20-10", none⟩]⟩

/-- A well-formed bmap document lacking the root `version` attribute. -/
def docNoVersion : BmapDoc :=
  .wellFormed ⟨none, some "4096", some "100", some "20", []⟩

/-- Is a queue item a data batch? -/
def isRange : QItem → Bool
  | .range _ _ _ _ => true
  | _ => false

/-- The bytes of `len` blocks starting at block `start` of a stream whose
block size is `bs`. -/
def slice (d : List Nat) (bs start len : Int) : List Nat :=
  (d.drop (start * bs).toNat).take (len * bs).toNat

/-- The bytes the image holds for the block range `[f, l]`. -/
def range_window (d : List Nat) (bs f l : Int) : List Nat :=
  slice d bs f (l - f + 1)

/-- Blocks carried by one queue item. -/
def item_len : QItem → Int
  | .range _ _ l _ => l
  | _ => 0

/-- Blocks carried by a list of queue items. -/
def items_len (items : List QItem) : Int :=
  items.foldr (fun i a => item_len i + a) 0

/-- Blocks covered by a list of range triplets. -/
def ranges_len (ts : List Triplet) : Int :=
  ts.foldr (fun t a => t.2.1 - t.1 + 1 + a) 0

/-- A range triplet the producer can process without stopping or failing:
within the image (so every read returns a full batch), and, when
verification is on, with a declared digest that matches the bytes the
image holds for the range. -/
def range_good (H : List Nat → String) (verify : Bool) (bs : Int)
    (d : List Nat) (t : Triplet) : Prop :=
  0 ≤ t.1 ∧ t.1 ≤ t.2.1 ∧ ((t.2.1 + 1) * bs).toNat ≤ d.length ∧
  (verify = true → ∀ c, t.2.2 = some c → H (range_window d bs t.1 t.2.1) = c)

/-- The consumer's `assert len(buf) <= length * block_size` holds for the
item (data items only). -/
def item_ok (bs : Int) : QItem → Prop
  | .range _ _ l buf => (buf.length : Int) ≤ l * bs
  | _ => False

/-- The data items the producer pushes for one fully-available range: one
item per batch, carrying exactly that batch's bytes. -/
def range_items (bs bb : Int) (d : List Nat) (t : Triplet) : List QItem :=
  (get_batches bb t.1 t.2.1).map
    (fun b => QItem.range b.1 b.2.1 b.2.2 (slice d bs b.1 b.2.2))

/-! ### Helper lemmas -/

theorem getLast?_cons_ne {α : Type} (a : α) (l : List α) (h : l ≠ []) :
    (a :: l).getLast? = l.getLast? := by
  cases l with
  | nil => exact absurd rfl h
  | cons b t => rfl

theorem get_batches_go_at_end (bb last : Int) (hbb : 0 < bb) (fuel : Nat) :
    get_batches_go bb fuel (last + 1) last = [] := by
  cases fuel with
  | zero => rfl
  | succ n =>
    show (if last + 1 + bb - 1 ≤ last then _ else _) = _
    rw [if_neg (by omega), if_neg (by omega)]

/-- Full characterization of the batch loop, by induction on the fuel:
provided the fuel exceeds `(last + 1 - first).toNat` and `first ≤ last`,
the emitted batches are nonempty, start at `first`, end at `last`, have
consistent positive lengths bounded by `bb` and stay inside the range,
are contiguous in increasing order, are all full except possibly the
final one, cover every block of the range, and collapse to a single
whole-range batch when the range is shorter than `bb`. -/
theorem get_batches_go_spec (bb last : Int) (hbb : 0 < bb) :
    ∀ (fuel : Nat) (first : Int), (last + 1 - first).toNat < fuel → first ≤ last →
    (get_batches_go bb fuel first last ≠ [] ∧
     (get_batches_go bb fuel first last).head?.map (fun b => b.1) = some first ∧
     ((get_batches_go bb fuel first last).getLast?).map (fun b => b.2.1) = some last ∧
     (∀ b ∈ get_batches_go bb fuel first last,
       b.2.2 = b.2.1 - b.1 + 1 ∧ 0 < b.2.2 ∧ b.2.2 ≤ bb ∧ first ≤ b.1 ∧ b.2.1 ≤ last) ∧
     List.Chain' (fun x y => x.2.1 + 1 = y.1) (get_batches_go bb fuel first last) ∧
     (∀ b ∈ (get_batches_go bb fuel first last).dropLast, b.2.2 = bb) ∧
     (∀ x : Int, first ≤ x → x ≤ last →
       ∃ b ∈ get_batches_go bb fuel first last, b.1 ≤ x ∧ x ≤ b.2.1) ∧
     (last - first + 1 < bb →
       get_batches_go bb fuel first last = [(first, last, last - first + 1)])) := by
  intro fuel
  induction fuel with
  | zero => intro first hm _; omega
  | succ n ih =>
    intro first hm h1
    show (let L := get_batches_go bb (n + 1) first last; _ : Prop)
    simp only [get_batches_go]
    by_cases hc : first + bb - 1 ≤ last
    · rw [if_pos hc]
      by_cases h2 : first + bb ≤ last
      · obtain ⟨ne', hd', lst', mem', ch', dl', cov', _⟩ := ih (first + bb) (by omega) h2
        refine ⟨by simp, rfl, ?_, ?_, ?_, ?_, ?_, ?_⟩
        · rw [getLast?_cons_ne _ _ ne']
          exact lst'
        · intro b hb
          rcases List.mem_cons.mp hb with hb | hb
          · subst hb
            refine ⟨by ring, hbb, le_refl _, le_refl _, hc⟩
          · obtain ⟨e1, e2, e3, e4, e5⟩ := mem' b hb
            exact ⟨e1, e2, e3, by omega, e5⟩
        · cases hL : get_batches_go bb n (first + bb) last with
          | nil => exact absurd hL ne'
          | cons hd tl =>
            rw [hL] at hd' ch'
            refine List.Chain'.cons ?_ ch'
            have : hd.1 = first + bb := by
              simpa using hd'
            show first + bb - 1 + 1 = hd.1
            omega
        · cases hL : get_batches_go bb n (first + bb) last with
          | nil => exact absurd hL ne'
          | cons hd tl =>
            rw [hL] at dl'
            intro b hb
            rcases List.mem_cons.mp hb with hb | hb
            · subst hb; rfl
            · exact dl' b hb
        · intro x hx1 hx2
          by_cases hx : x ≤ first + bb - 1
          · exact ⟨(first, first + bb - 1, bb), List.mem_cons_self _ _, hx1, hx⟩

          · obtain ⟨b, hb, e1, e2⟩ := cov' x (by omega) hx2
            exact ⟨b, List.mem_cons_of_mem _ hb, e1, e2⟩
        · intro hsh; omega
      · have hend : first + bb = last + 1 := by omega
        have hL : get_batches_go bb n (first + bb) last = [] := by
          rw [hend]
          exact get_batches_go_at_end bb last hbb n
        rw [hL]
        have hlast : first + bb - 1 = last := by omega
        refine ⟨by simp, rfl, ?_, ?_, ?_, ?_, ?_, ?_⟩
        · simp [hlast]
        · intro b hb
          rcases List.mem_cons.mp hb with hb | hb
          · subst hb
            refine ⟨by ring, hbb, le_refl _, le_refl _, ?_⟩
            show first + bb - 1 ≤ last
            omega
          · simp at hb
        · exact List.Chain.nil
        · intro b hb; simp at hb
        · intro x hx1 hx2
          refine ⟨(first, first + bb - 1, bb), List.mem_cons_self _ _, hx1, ?_⟩
          show x ≤ first + bb - 1
          omega
        · intro hsh; omega
    · rw [if_neg hc]
      rw [if_pos (show ¬(last - first + 1 = 0) by omega)]
      have hlast : first + (last - first + 1) - 1 = last := by ring
      rw [hlast]
      refine ⟨by simp, rfl, rfl, ?_, List.Chain.nil, ?_, ?_, fun _ => rfl⟩
      · intro b hb
        rcases List.mem_cons.mp hb with hb | hb
        · subst hb
          refine ⟨by ring, ?_, ?_, le_refl _, le_refl _⟩
          · show (0 : Int) < last - first + 1
            omega
          · show last - first + 1 ≤ bb
            omega
        · simp at hb
      · intro b hb; simp at hb
      · intro x hx1 hx2
        exact ⟨(first, last, last - first + 1), List.mem_cons_self _ _, hx1, hx2⟩

theorem getLast?_append_cons {α : Type} (pre : List α) (x : α) (xs : List α) :
    (pre ++ x :: xs).getLast? = (x :: xs).getLast? := by
  induction pre with
  | nil => rfl
  | cons a t ih =>
    rw [List.cons_append, getLast?_cons_ne a (t ++ x :: xs) (by simp), ih]

/-- The batch loop pushes only data items, except that a zero-byte read
makes it push the `None` sentinel last and report `stopped`. -/
theorem batch_loop_shape (track : Bool) (bs : Int) :
    ∀ (batches : List (Int × Int × Int)) (img : SrcFile) (acc : List Nat),
    ((batch_loop track bs img batches acc).2.1 = .stopped →
      ∃ pre, (∀ i ∈ pre, isRange i = true) ∧
        (batch_loop track bs img batches acc).1 = pre ++ [QItem.none_]) ∧
    ((batch_loop track bs img batches acc).2.1 ≠ .stopped →
      ∀ i ∈ (batch_loop track bs img batches acc).1, isRange i = true) := by
  intro batches
  induction batches with
  | nil =>
    intro img acc
    refine ⟨fun h => ?_, fun _ i hi => ?_⟩
    · simp [batch_loop] at h
    · simp [batch_loop] at hi
  | cons b rest ih =>
    intro img acc
    obtain ⟨s, e, l⟩ := b
    simp only [batch_loop]
    cases hr : src_read img (l * bs) with
    | error ex =>
      refine ⟨fun h => ?_, fun _ i hi => ?_⟩
      · simp at h
      · simp at hi
    | ok p =>
      obtain ⟨buf, img1⟩ := p
      cases hb : buf.isEmpty with
      | true =>
        simp only [hb, if_true]
        refine ⟨fun _ => ⟨[], by simp, rfl⟩, fun h => absurd rfl h⟩
      | false =>
        simp only [hb, Bool.false_eq_true, if_false]
        rcases hT : batch_loop track bs img1 rest (if track then acc ++ buf else acc)
          with ⟨items, out, acc2⟩
        have hI := ih img1 (if track then acc ++ buf else acc)
        rw [hT] at hI
        simp only [hT]
        refine ⟨fun h => ?_, fun h i hi => ?_⟩
        · simp only at h
          obtain ⟨pre, hpre, heq⟩ := hI.1 h
          refine ⟨QItem.range s (s + pydiv ((buf.length : Int) + bs - 1) bs - 1)
            (pydiv ((buf.length : Int) + bs - 1) bs) buf :: pre, ?_, ?_⟩
          · intro i hi
            rcases List.mem_cons.mp hi with hi | hi
            · subst hi; rfl
            · exact hpre i hi
          · simp only at heq
            rw [List.cons_append, heq]
        · simp only at h hi
          rcases List.mem_cons.mp hi with hi | hi
          · subst hi; rfl
          · exact hI.2 h i hi

/-- Shape of one producer range iteration: only data items unless it
stopped on a zero-byte read, in which case the items end with the one
`None` sentinel. -/
theorem produce_range_shape (H : List Nat → String) (verify : Bool) (bs bb : Int)
    (img : SrcFile) (t : Triplet) :
    ((produce_range H verify bs bb img t).2 = .stopped →
      ∃ pre, (∀ i ∈ pre, isRange i = true) ∧
        (produce_range H verify bs bb img t).1 = pre ++ [QItem.none_]) ∧
    ((produce_range H verify bs bb img t).2 ≠ .stopped →
      ∀ i ∈ (produce_range H verify bs bb img t).1, isRange i = true) := by
  have hB := batch_loop_shape (verify && t.2.2.isSome) bs (get_batches bb t.1 t.2.1)
    { img with pos := t.1 * bs } []
  simp only [produce_range]
  rcases hT : batch_loop (verify && t.2.2.isSome) bs { img with pos := t.1 * bs }
    (get_batches bb t.1 t.2.1) [] with ⟨items, out, acc⟩
  rw [hT] at hB
  simp only at hB
  cases out with
  | normal =>
    cases hs : t.2.2 with
    | none =>
      simp only [hs]
      exact ⟨fun h => by simp at h, fun _ => hB.2 (by simp)⟩
    | some c =>
      simp only [hs]
      by_cases hv : (verify && (H acc != c)) = true
      · rw [if_pos hv]
        exact ⟨fun h => by simp at h, fun _ => hB.2 (by simp)⟩
      · rw [if_neg hv]
        exact ⟨fun h => by simp at h, fun _ => hB.2 (by simp)⟩
  | stopped =>
    exact ⟨fun _ => hB.1 rfl, fun h => absurd rfl h⟩
  | failed e =>
    exact ⟨fun h => by simp at h, fun _ => hB.2 (by simp)⟩

/-- The full producer output is a block of data items followed by either
the lone `None` sentinel or one error record and then the lone `None`
sentinel. -/
theorem get_data_shape (H : List Nat → String) (verify : Bool) (bs bb : Int)
    (img : SrcFile) :
    ∀ (ts : List Triplet) (ge : Option PyExc),
    ∃ pre, (∀ i ∈ pre, isRange i = true) ∧
      (get_data H verify bs bb img ts ge = pre ++ [QItem.none_] ∨
       ∃ e, get_data H verify bs bb img ts ge = pre ++ [QItem.error e, QItem.none_]) := by
  intro ts
  induction ts with
  | nil =>
    intro ge
    cases ge with
    | none => exact ⟨[], by simp, Or.inl rfl⟩
    | some e => exact ⟨[], by simp, Or.inr ⟨e, rfl⟩⟩
  | cons t rest ih =>
    intro ge
    simp only [get_data]
    have hP := produce_range_shape H verify bs bb img t
    rcases hT : produce_range H verify bs bb img t with ⟨items, out⟩
    rw [hT] at hP
    simp only at hP
    cases out with
    | stopped =>
      obtain ⟨pre, hpre, heq⟩ := hP.1 rfl
      exact ⟨pre, hpre, Or.inl heq⟩
    | failed e =>
      have hall := hP.2 (by simp)
      exact ⟨items, hall, Or.inr ⟨e, rfl⟩⟩
    | normal =>
      have hall := hP.2 (by simp)
      obtain ⟨pre, hpre, hcase⟩ := ih ge
      refine ⟨items ++ pre, ?_, ?_⟩
      · intro i hi
        rcases List.mem_append.mp hi with hi | hi
        · exact hall i hi
        · exact hpre i hi
      · rcases hcase with hcase | ⟨e, hcase⟩
        · exact Or.inl (by rw [hcase, List.append_assoc])
        · exact Or.inr ⟨e, by rw [hcase, List.append_assoc]⟩

/-- The size-initialization phase never touches the files, the bmap, or
the batching parameters. -/
theorem size_init_frame (s : Session) (bw : Int) :
    (size_init s bw).image = s.image ∧ (size_init s bw).dest = s.dest ∧
    (size_init s bw).bmap = s.bmap := by
  by_cases h : truthyOpt s.image_size <;> simp [size_init, init_sizes, h]

/-- A successful size check returns the size-initialized session, whose
mapped count agrees with the blocks written. -/
theorem size_check_ok (s : Session) (bw : Int) (s1 : Session)
    (h : size_check s bw = .ok s1) :
    s1 = size_init s bw ∧ s1.mapped_cnt = some bw := by
  unfold size_check at h
  cases hm : (size_init s bw).mapped_cnt with
  | none => rw [hm] at h; cases h
  | some m =>
    rw [hm] at h
    dsimp only at h
    by_cases hbw : bw ≠ m
    · rw [if_pos hbw] at h; cases h
    · rw [if_neg hbw] at h
      cases h
      push_neg at hbw
      exact ⟨rfl, by rw [hm, hbw]⟩

/-- When the consumer finished but the count disagrees with the mapped
count, the size check produces exactly the SizeMismatch `Error`. -/
theorem size_check_mismatch (s : Session) (bw m : Int)
    (hm : (size_init s bw).mapped_cnt = some m) (hne : bw ≠ m) :
    size_check s bw = .error (.Error ("wrote " ++ toString bw ++ " blocks, but should have "
      ++ toString m ++ " - inconsistent bmap file")) := by
  unfold size_check
  rw [hm]
  dsimp only
  rw [if_pos hne]

theorem pydiv_full (l bs : Int) (hbs : 0 < bs) (_hl : 0 ≤ l) :
    pydiv (l * bs + bs - 1) bs = l := by
  unfold pydiv
  rw [Int.fdiv_eq_ediv _ (le_of_lt hbs)]
  have h1 : l * bs + bs - 1 = (bs - 1) + l * bs := by ring
  rw [h1, Int.add_mul_ediv_right _ _ (ne_of_gt hbs),
    Int.ediv_eq_zero_of_lt (by omega) (by omega)]
  ring

theorem slice_append (d : List Nat) (bs f a b : Int)
    (hbs : 0 ≤ bs) (hf : 0 ≤ f) (ha : 0 ≤ a) (hb : 0 ≤ b) :
    slice d bs f a ++ slice d bs (f + a) b = slice d bs f (a + b) := by
  unfold slice
  have h1 : ((f + a) * bs).toNat = (f * bs).toNat + (a * bs).toNat := by
    have e1 : 0 ≤ f * bs := mul_nonneg hf hbs
    have e2 : 0 ≤ a * bs := mul_nonneg ha hbs
    have e3 : (f + a) * bs = f * bs + a * bs := by ring
    omega
  have h2 : ((a + b) * bs).toNat = (a * bs).toNat + (b * bs).toNat := by
    have e1 : 0 ≤ a * bs := mul_nonneg ha hbs
    have e2 : 0 ≤ b * bs := mul_nonneg hb hbs
    have e3 : (a + b) * bs = a * bs + b * bs := by ring
    omega
  rw [h1, h2, ← List.drop_drop]
  exact (List.take_add _ _ _).symm

theorem slice_length (d : List Nat) (bs start len : Int)
    (h : (start * bs).toNat + (len * bs).toNat ≤ d.length) :
    (slice d bs start len).length = (len * bs).toNat := by
  unfold slice
  rw [List.length_take, List.length_drop]
  omega

/-- Total length of the batches of the loop: the whole range. -/
theorem get_batches_go_len_sum (bb last : Int) (hbb : 0 < bb) :
    ∀ (fuel : Nat) (first : Int), (last + 1 - first).toNat < fuel → first ≤ last + 1 →
    (get_batches_go bb fuel first last).foldr (fun b a => b.2.2 + a) 0 =
      last + 1 - first := by
  intro fuel
  induction fuel with
  | zero => intro first hm _; omega
  | succ n ih =>
    intro first hm h1
    simp only [get_batches_go]
    by_cases hc : first + bb - 1 ≤ last
    · rw [if_pos hc]
      simp only [List.foldr_cons]
      rw [ih (first + bb) (by omega) (by omega)]
      show bb + (last + 1 - (first + bb)) = last + 1 - first
      ring
    · rw [if_neg hc]
      by_cases h0 : last - first + 1 = 0
      · rw [if_neg (by omega : ¬(last - first + 1 ≠ 0))]
        show (0 : Int) = last + 1 - first
        omega
      · rw [if_pos (by omega : ¬(last - first + 1 = 0))]
        show last - first + 1 + 0 = last + 1 - first
        ring

/-- A read of `len` blocks at block `start` from a healthy image returns
the corresponding slice and advances the position by its byte length. -/
theorem src_read_slice (d : List Nat) (bs start len : Int) :
    src_read ⟨d, start * bs, none⟩ (len * bs) =
      .ok (slice d bs start len, ⟨d, start * bs + (slice d bs start len).length, none⟩) := by
  unfold src_read slice
  rw [if_neg (by simp)]

/-- One iteration of the batch loop on a healthy image holding the whole
batch: the read returns exactly the batch's bytes, the recomputed length
and end are unchanged, and the loop continues at the next block. -/
theorem batch_step (track : Bool) (bs : Int) (d : List Nat) (first len : Int)
    (hbs : 0 < bs) (hlen : 0 < len) (h0 : 0 ≤ first)
    (hcov : ((first + len) * bs).toNat ≤ d.length)
    (rest : List (Int × Int × Int)) (acc : List Nat) :
    batch_loop track bs ⟨d, first * bs, none⟩ ((first, first + len - 1, len) :: rest) acc =
      (QItem.range first (first + len - 1) len (slice d bs first len) ::
         (batch_loop track bs ⟨d, (first + len) * bs, none⟩ rest
           (if track then acc ++ slice d bs first len else acc)).1,
       (batch_loop track bs ⟨d, (first + len) * bs, none⟩ rest
         (if track then acc ++ slice d bs first len else acc)).2.1,
       (batch_loop track bs ⟨d, (first + len) * bs, none⟩ rest
         (if track then acc ++ slice d bs first len else acc)).2.2) := by
  have e1 : 0 ≤ first * bs := mul_nonneg h0 (le_of_lt hbs)
  have e2 : 0 ≤ len * bs := mul_nonneg (le_of_lt hlen) (le_of_lt hbs)
  have e3 : (first + len) * bs = first * bs + len * bs := by ring
  have e4 : 0 < len * bs := mul_pos hlen hbs
  have hblen : (slice d bs first len).length = (len * bs).toNat :=
    slice_length d bs first len (by omega)
  have hne : (slice d bs first len).isEmpty = false := by
    rw [List.isEmpty_eq_false_iff_exists_mem]
    have hne0 : (slice d bs first len).length ≠ 0 := by omega
    cases hsl : slice d bs first len with
    | nil => rw [hsl] at hne0; simp at hne0
    | cons x xs => exact ⟨x, by simp⟩
  have hl1 : pydiv (((slice d bs first len).length : Int) + bs - 1) bs = len := by
    rw [hblen, Int.toNat_of_nonneg e2]
    exact pydiv_full len bs hbs (le_of_lt hlen)
  have himg : first * bs + ((slice d bs first len).length : Int) = (first + len) * bs := by
    rw [hblen, Int.toNat_of_nonneg e2]
    ring
  simp only [batch_loop]
  rw [src_read_slice d bs first len]
  dsimp only
  rw [hne]
  simp only [Bool.false_eq_true, if_false]
  rw [hl1, himg]

/-- The batch loop over the batches of `[first, last]`, on a healthy
image that holds data for the whole range: every read is full, so the
loop emits exactly one data item per batch carrying that batch's bytes,
finishes normally, and (when tracking) accumulates exactly the bytes of
the range. -/
theorem batch_loop_on_go (track : Bool) (bs bb : Int) (d : List Nat)
    (hbs : 0 < bs) (hbb : 0 < bb) (last : Int)
    (hcov : ((last + 1) * bs).toNat ≤ d.length) :
    ∀ (fuel : Nat) (first : Int), (last + 1 - first).toNat < fuel →
      0 ≤ first → first ≤ last + 1 → ∀ acc,
      batch_loop track bs ⟨d, first * bs, none⟩ (get_batches_go bb fuel first last) acc =
        ((get_batches_go bb fuel first last).map
           (fun b => QItem.range b.1 b.2.1 b.2.2 (slice d bs b.1 b.2.2)),
         LoopOut.normal,
         if track then acc ++ range_window d bs first last else acc) := by
  intro fuel
  induction fuel with
  | zero => intro first hm _ _; omega
  | succ n ih =>
    intro first hm h0 h1 acc
    have hmono : ∀ x y : Int, x ≤ y → (x * bs).toNat ≤ (y * bs).toNat := by
      intro x y hxy
      have := mul_le_mul_of_nonneg_right hxy (le_of_lt hbs)
      omega
    simp only [get_batches_go]
    by_cases hc : first + bb - 1 ≤ last
    · rw [if_pos hc]
      rw [batch_step track bs d first bb hbs hbb h0
        (le_trans (hmono (first + bb) (last + 1) (by omega)) hcov)
        (get_batches_go bb n (first + bb) last) acc]
      rw [ih (first + bb) (by omega) (by omega) (by omega)
        (if track then acc ++ slice d bs first bb else acc)]
      have hwin : slice d bs first bb ++ range_window d bs (first + bb) last =
          range_window d bs first last := by
        unfold range_window
        rw [slice_append d bs first bb (last - (first + bb) + 1)
          (le_of_lt hbs) h0 (le_of_lt hbb) (by omega)]
        have harg : bb + (last - (first + bb) + 1) = last - first + 1 := by ring
        rw [harg]
      cases track with
      | true =>
        simp only [if_true, List.map_cons]
        rw [List.append_assoc, hwin]
      | false =>
        simp only [Bool.false_eq_true, if_false, List.map_cons]
    · rw [if_neg hc]
      by_cases hz : last - first + 1 = 0
      · rw [if_neg (by omega : ¬(last - first + 1 ≠ 0))]
        have hwin0 : range_window d bs first last = [] := by
          unfold range_window slice
          have : ((last - first + 1) * bs).toNat = 0 := by
            rw [hz]
            simp
          rw [this]
          simp
        simp only [batch_loop, List.map_nil, hwin0]
        cases track with
        | true => simp
        | false => simp
      · rw [if_pos (by omega : ¬(last - first + 1 = 0))]
        have hfl : first ≤ last := by omega
        rw [batch_step track bs d first (last - first + 1) hbs (by omega) h0
          (by
            have harg : first + (last - first + 1) = last + 1 := by ring
            rw [harg]
            exact hcov)
          [] acc]
        simp only [batch_loop, List.map_cons, List.map_nil]
        unfold range_window
        cases track with
        | true => simp
        | false => simp

/-- One producer range iteration on a healthy image holding the whole
range: the pushed items are exactly the per-batch data items, and the
outcome is normal unless verification is on, a digest is declared, and
the bytes of the range do not hash to it — in which case the iteration
fails with the ChecksumMismatch `Error` over exactly those bytes. -/
theorem produce_range_full (H : List Nat → String) (verify : Bool) (bs bb : Int)
    (d : List Nat) (p : Int) (f l : Int) (sha : Option String)
    (hbs : 0 < bs) (hbb : 0 < bb) (hf : 0 ≤ f) (hfl : f ≤ l)
    (hcov : ((l + 1) * bs).toNat ≤ d.length) :
    produce_range H verify bs bb ⟨d, p, none⟩ (f, l, sha) =
      (range_items bs bb d (f, l, sha),
       match sha with
       | some c =>
         if verify && (H (range_window d bs f l) != c) then
           LoopOut.failed (checksum_err f l (H (range_window d bs f l)) c)
         else LoopOut.normal
       | none => LoopOut.normal) := by
  have hloop := batch_loop_on_go (verify && sha.isSome) bs bb d hbs hbb l hcov
    ((l + 1 - f).toNat + 1) f (Nat.lt_succ_self _) hf (by omega) []
  simp only [produce_range, range_items, get_batches]
  rw [if_neg (by omega : ¬ bb ≤ 0)]
  rw [hloop]
  dsimp only
  cases sha with
  | none =>
    simp only [Option.isSome_none, Bool.and_false]
  | some c =>
    simp only [Option.isSome_some, Bool.and_true]
    cases verify with
    | false => rfl
    | true =>
      simp only [if_true, List.nil_append]
      by_cases hh : H (range_window d bs f l) != c
      · rw [if_pos (by simp [hh]), if_pos (by simp [hh])]
      · rw [if_neg (by simp at hh ⊢; exact hh), if_neg (by simp at hh ⊢; exact hh)]

/-- A good range (fully available, digest matching when checked) is
processed without stopping or failing. -/
theorem produce_range_good (H : List Nat → String) (verify : Bool) (bs bb : Int)
    (d : List Nat) (p : Int) (t : Triplet) (hbs : 0 < bs) (hbb : 0 < bb)
    (hgood : range_good H verify bs d t) :
    produce_range H verify bs bb ⟨d, p, none⟩ t = (range_items bs bb d t, .normal) := by
  obtain ⟨f, l, sha⟩ := t
  obtain ⟨h0, hfl, hcov, hhash⟩ := hgood
  rw [produce_range_full H verify bs bb d p f l sha hbs hbb h0 hfl hcov]
  cases sha with
  | none => rfl
  | some c =>
    cases verify with
    | false => simp
    | true =>
      have hc : H (range_window d bs f l) = c := hhash rfl c rfl
      simp [hc]

/-- Membership facts about the emitted batches (wrapper over the fuel
lemma). -/
theorem get_batches_mem_spec (bb first last : Int) (h2 : 0 < bb) (h1 : first ≤ last) :
    ∀ b ∈ get_batches bb first last,
      b.2.2 = b.2.1 - b.1 + 1 ∧ 0 < b.2.2 ∧ b.2.2 ≤ bb ∧ first ≤ b.1 ∧ b.2.1 ≤ last := by
  unfold get_batches
  rw [if_neg (by omega : ¬ bb ≤ 0)]
  exact (get_batches_go_spec bb last h2 _ first (Nat.lt_succ_self _) h1).2.2.2.1

/-- Every data item the producer pushes for a range satisfies the
consumer's `assert len(buf) <= length * block_size`. -/
theorem range_items_ok (bs bb : Int) (d : List Nat) (t : Triplet)
    (hbs : 0 < bs) (hbb : 0 < bb) (hfl : t.1 ≤ t.2.1) :
    ∀ i ∈ range_items bs bb d t, item_ok bs i := by
  intro i hi
  unfold range_items at hi
  obtain ⟨b, hb, rfl⟩ := List.mem_map.mp hi
  obtain ⟨-, hpos, -, -, -⟩ := get_batches_mem_spec bb t.1 t.2.1 hbb hfl b hb
  show ((slice d bs b.1 b.2.2).length : Int) ≤ b.2.2 * bs
  have h5 : (slice d bs b.1 b.2.2).length ≤ (b.2.2 * bs).toNat := by
    unfold slice
    exact List.length_take_le _ _
  have h6 : 0 ≤ b.2.2 * bs := mul_nonneg (le_of_lt hpos) (le_of_lt hbs)
  omega

theorem items_len_append (a b : List QItem) :
    items_len (a ++ b) = items_len a + items_len b := by
  unfold items_len
  induction a with
  | nil => simp
  | cons i t ih =>
    simp only [List.cons_append, List.foldr_cons, ih]
    ring

/-- The items of one range carry exactly the range's block count. -/
theorem items_len_range_items (bs bb : Int) (d : List Nat) (t : Triplet)
    (hbb : 0 < bb) (hfl : t.1 ≤ t.2.1) :
    items_len (range_items bs bb d t) = t.2.1 - t.1 + 1 := by
  unfold items_len range_items
  rw [List.foldr_map]
  show (get_batches bb t.1 t.2.1).foldr (fun b a => b.2.2 + a) 0 = _
  unfold get_batches
  rw [if_neg (by omega : ¬ bb ≤ 0)]
  rw [get_batches_go_len_sum bb t.2.1 hbb _ t.1 (Nat.lt_succ_self _) (by omega)]
  ring

/-- The items of a list of ranges carry exactly the total block count of
the ranges. -/
theorem items_len_flatten_ranges (bs bb : Int) (d : List Nat) (hbb : 0 < bb) :
    ∀ ts : List Triplet, (∀ t ∈ ts, t.1 ≤ t.2.1) →
    items_len ((ts.map (range_items bs bb d)).flatten) = ranges_len ts := by
  intro ts
  induction ts with
  | nil => intro _; rfl
  | cons t rest ih =>
    intro hts
    simp only [List.map_cons, List.flatten_cons]
    rw [items_len_append,
      items_len_range_items bs bb d t hbb (hts t (List.mem_cons_self _ _)),
      ih (fun x hx => hts x (List.mem_cons_of_mem _ hx))]
    rfl

/-- Splitting the producer run at a prefix of good ranges: the prefix
contributes exactly its data items and the run continues with the rest. -/
theorem get_data_append_good (H : List Nat → String) (verify : Bool) (bs bb : Int)
    (d : List Nat) (p : Int) (hbs : 0 < bs) (hbb : 0 < bb) :
    ∀ (ts1 ts2 : List Triplet) (ge : Option PyExc),
      (∀ t ∈ ts1, range_good H verify bs d t) →
      get_data H verify bs bb ⟨d, p, none⟩ (ts1 ++ ts2) ge =
        (ts1.map (range_items bs bb d)).flatten ++
          get_data H verify bs bb ⟨d, p, none⟩ ts2 ge := by
  intro ts1
  induction ts1 with
  | nil => intro ts2 ge _; simp
  | cons t rest ih =>
    intro ts2 ge hgood
    simp only [List.cons_append, get_data]
    rw [produce_range_good H verify bs bb d p t hbs hbb
      (hgood t (List.mem_cons_self _ _))]
    dsimp only
    simp only [List.append_eq]
    rw [ih ts2 ge (fun x hx => hgood x (List.mem_cons_of_mem _ hx))]
    simp [List.append_assoc]

/-- The consumer processes a block of healthy data items followed by the
end marker: it succeeds and counts exactly the blocks carried. -/
theorem consume_ranges_ok (bs : Int) (wm : Option Int) :
    ∀ (items : List QItem) (dest : DestFile) (bw fl : Int),
      dest.write_fail = false → dest.fsync_fail = false →
      (∀ i ∈ items, item_ok bs i) →
      ∃ d1, consume bs wm (items ++ [QItem.none_]) dest bw fl =
          .ok (d1, bw + items_len items) ∧
        d1.write_fail = false ∧ d1.flush_fail = dest.flush_fail ∧ d1.fsync_fail = false := by
  intro items
  induction items with
  | nil =>
    intro dest bw fl hw hf _
    refine ⟨dest, ?_, hw, rfl, hf⟩
    show consume bs wm [QItem.none_] dest bw fl = _
    simp [consume, items_len]
  | cons i rest ih =>
    intro dest bw fl hw hf hok
    have hi := hok i (List.mem_cons_self _ _)
    cases i with
    | error e => exact absurd hi (by simp [item_ok])
    | none_ => exact absurd hi (by simp [item_ok])
    | range st e l buf =>
      have hbuf : (buf.length : Int) ≤ l * bs := hi
      simp only [List.cons_append, consume]
      rw [if_neg (not_lt.mpr hbuf)]
      simp only [hf, Bool.and_false, Bool.false_eq_true, if_false, hw, List.append_eq]
      obtain ⟨d1, hrec, hw1, hfl1, hf1⟩ := ih
        ⟨list_overlay dest.data (st * bs).toNat buf, st * bs + buf.length,
          false, dest.flush_fail, false⟩
        (bw + l)
        (if truthyOpt wm && decide (fl + wm.getD 0 ≤ bw) then bw else fl)
        rfl rfl (fun x hx => hok x (List.mem_cons_of_mem _ hx))
      refine ⟨d1, ?_, hw1, hfl1, hf1⟩
      rw [hrec]
      have harith : bw + l + items_len rest = bw + items_len (QItem.range st e l buf :: rest) := by
        simp only [items_len, List.foldr_cons, item_len]
        ring
      rw [harith]

/-- The consumer aborts with exactly the forwarded error after a block of
healthy data items. -/
theorem consume_error_tail (bs : Int) (wm : Option Int) (e : PyExc) (tl : List QItem) :
    ∀ (items : List QItem) (dest : DestFile) (bw fl : Int),
      dest.write_fail = false → dest.fsync_fail = false →
      (∀ i ∈ items, item_ok bs i) →
      consume bs wm (items ++ QItem.error e :: tl) dest bw fl = .error e := by
  intro items
  induction items with
  | nil =>
    intro dest bw fl _ _ _
    simp [consume]
  | cons i rest ih =>
    intro dest bw fl hw hf hok
    have hi := hok i (List.mem_cons_self _ _)
    cases i with
    | error e2 => exact absurd hi (by simp [item_ok])
    | none_ => exact absurd hi (by simp [item_ok])
    | range st e2 l buf =>
      have hbuf : (buf.length : Int) ≤ l * bs := hi
      simp only [List.cons_append, consume]
      rw [if_neg (not_lt.mpr hbuf)]
      simp only [hf, Bool.and_false, Bool.false_eq_true, if_false, hw, List.append_eq]
      exact ih _ _ _ rfl rfl (fun x hx => hok x (List.mem_cons_of_mem _ hx))

/-! ### Claim theorems -/

/-- C5: for every range `[first, last]` with `first ≤ last` and every
`batch_blocks > 0`, `_get_batches` emits a nonempty sequence of batches
that starts at `first`, ends at `last`, is contiguous and increasing
(each batch's end + 1 is the next batch's start), satisfies
`length = end - start + 1 > 0` with `length ≤ batch_blocks` for every
batch (so no empty trailing batch when the range length is an exact
multiple), consists of full `batch_blocks`-sized batches except possibly
the final shorter one, covers exactly the blocks of `[first, last]`, and
collapses to the single whole-range batch when the range is shorter than
`batch_blocks`. -/
theorem c5_get_batches_correct (batch_blocks first last : Int)
    (h1 : first ≤ last) (h2 : 0 < batch_blocks) :
    (get_batches batch_blocks first last ≠ [] ∧
     (get_batches batch_blocks first last).head?.map (fun b => b.1) = some first ∧
     ((get_batches batch_blocks first last).getLast?).map (fun b => b.2.1) = some last ∧
     (∀ b ∈ get_batches batch_blocks first last,
       b.2.2 = b.2.1 - b.1 + 1 ∧ 0 < b.2.2 ∧ b.2.2 ≤ batch_blocks ∧
       first ≤ b.1 ∧ b.2.1 ≤ last) ∧
     List.Chain' (fun x y => x.2.1 + 1 = y.1) (get_batches batch_blocks first last) ∧
     (∀ b ∈ (get_batches batch_blocks first last).dropLast, b.2.2 = batch_blocks) ∧
     (∀ x : Int, first ≤ x → x ≤ last →
       ∃ b ∈ get_batches batch_blocks first last, b.1 ≤ x ∧ x ≤ b.2.1) ∧
     (last - first + 1 < batch_blocks →
       get_batches batch_blocks first last = [(first, last, last - first + 1)])) := by
  have hne : ¬ batch_blocks ≤ 0 := by omega
  simp only [get_batches, hne, if_false]
  exact get_batches_go_spec batch_blocks last h2 ((last + 1 - first).toNat + 1) first
    (Nat.lt_succ_self _) h1

/-- C5 witness at `batch_blocks = 3`, range `[0, 9]`. -/
theorem c5_get_batches_correct_witness :
    ((0 : Int) ≤ 9 ∧ (0 : Int) < 3) ∧
    (get_batches 3 0 9 ≠ [] ∧
     (get_batches 3 0 9).head?.map (fun b => b.1) = some 0 ∧
     ((get_batches 3 0 9).getLast?).map (fun b => b.2.1) = some 9 ∧
     (∀ b ∈ get_batches 3 0 9,
       b.2.2 = b.2.1 - b.1 + 1 ∧ 0 < b.2.2 ∧ b.2.2 ≤ 3 ∧ 0 ≤ b.1 ∧ b.2.1 ≤ 9) ∧
     List.Chain' (fun x y => x.2.1 + 1 = y.1) (get_batches 3 0 9) ∧
     (∀ b ∈ (get_batches 3 0 9).dropLast, b.2.2 = 3) ∧
     (∀ x : Int, 0 ≤ x → x ≤ 9 → ∃ b ∈ get_batches 3 0 9, b.1 ≤ x ∧ x ≤ b.2.1) ∧
     ((9 : Int) - 0 + 1 < 3 → get_batches 3 0 9 = [(0, 9, (9 : Int) - 0 + 1)])) :=
  ⟨⟨by decide, by decide⟩, c5_get_batches_correct 3 0 9 (by decide) (by decide)⟩

/-- C8: for every input and every termination mode of the producer —
normal completion of all ranges, a zero-byte read, a forwarded exception
(read failure, checksum mismatch, or a range-generator error) — the item
sequence `_get_data` pushes ends with the `None` end-of-stream sentinel
and contains that sentinel exactly once (it is not in the prefix), and an
error record is always immediately followed by that one final sentinel,
with only data items before it. -/
theorem c8_producer_always_ends_with_marker (H : List Nat → String) (verify : Bool)
    (bs bb : Int) (img : SrcFile) (ts : List Triplet) (ge : Option PyExc)
    (_hbs : 0 < bs) (_hbb : 0 < bb) :
    (∃ pre, QItem.none_ ∉ pre ∧
       get_data H verify bs bb img ts ge = pre ++ [QItem.none_]) ∧
    (∀ e, QItem.error e ∈ get_data H verify bs bb img ts ge →
       ∃ pre, (∀ i ∈ pre, isRange i = true) ∧
         get_data H verify bs bb img ts ge = pre ++ [QItem.error e, QItem.none_]) := by
  obtain ⟨pre, hpre, hcase⟩ := get_data_shape H verify bs bb img ts ge
  have hnm : QItem.none_ ∉ pre := fun hm => by simpa [isRange] using hpre _ hm
  rcases hcase with hL | ⟨e', hL⟩
  · refine ⟨⟨pre, hnm, hL⟩, ?_⟩
    intro e he
    rw [hL] at he
    rcases List.mem_append.mp he with he | he
    · have := hpre _ he; simp [isRange] at this
    · simp at he
  · refine ⟨⟨pre ++ [QItem.error e'], ?_, by rw [hL, List.append_assoc]; rfl⟩, ?_⟩
    · intro hm
      rcases List.mem_append.mp hm with hm | hm
      · exact hnm hm
      · simp at hm
    · intro e he
      rw [hL] at he
      rcases List.mem_append.mp he with he | he
      · have := hpre _ he; simp [isRange] at this
      · simp at he
        subst he
        exact ⟨pre, hpre, hL⟩

/-- C8 witness: block size 1, batch size 2, a 2-byte image, one range. -/
theorem c8_producer_always_ends_with_marker_witness :
    ((0 : Int) < 1 ∧ (0 : Int) < 2) ∧
    ((∃ pre, QItem.none_ ∉ pre ∧
        get_data Hsum true 1 2 ⟨[9, 9], 0, none⟩ [(0, 1, none)] none =
          pre ++ [QItem.none_]) ∧
     (∀ e, QItem.error e ∈ get_data Hsum true 1 2 ⟨[9, 9], 0, none⟩ [(0, 1, none)] none →
        ∃ pre, (∀ i ∈ pre, isRange i = true) ∧
          get_data Hsum true 1 2 ⟨[9, 9], 0, none⟩ [(0, 1, none)] none =
            pre ++ [QItem.error e, QItem.none_])) :=
  ⟨⟨by decide, by decide⟩,
   c8_producer_always_ends_with_marker Hsum true 1 2 ⟨[9, 9], 0, none⟩ [(0, 1, none)] none
     (by decide) (by decide)⟩

/-- C4: when the copy loop ends normally, the number of blocks written
must equal the manifest's mapped blocks count: a successful `copy`
always reports `mapped_cnt = some blocks_written`, and whenever the
consumer loop finishes with a count that disagrees with the (possibly
just initialized) mapped count, `copy` fails with exactly the
SizeMismatch `Error` — the mismatch is never silently tolerated. -/
theorem c4_blocks_written_checked (H : List Nat → String) (snc verify : Bool) (s : Session) :
    ((copy H snc verify s).isOk = true →
      (copy H snc verify s).map (fun r => decide (r.1.mapped_cnt = some r.2)) = .ok true) ∧
    (∀ bw, (consume s.block_size s.dest_fsync_watermark (copy_items H verify s)
        s.dest 0 0).map (fun p => p.2) = .ok bw →
      ∀ m, (size_init s bw).mapped_cnt = some m → bw ≠ m →
      copy H snc verify s =
        .error (.Error ("wrote " ++ toString bw ++ " blocks, but should have "
          ++ toString m ++ " - inconsistent bmap file"))) := by
  constructor
  · intro hok
    simp only [copy] at hok ⊢
    cases hc : consume s.block_size s.dest_fsync_watermark (copy_items H verify s)
        s.dest 0 0 with
    | error e => rw [hc] at hok; cases hok
    | ok p =>
      obtain ⟨dest1, bw⟩ := p
      rw [hc] at hok
      dsimp only at hok ⊢
      cases hsc : size_check s bw with
      | error e => rw [hsc] at hok; cases hok
      | ok s1 =>
        rw [hsc] at hok
        dsimp only at hok ⊢
        obtain ⟨-, hmap⟩ := size_check_ok s bw s1 hsc
        by_cases hf : dest1.flush_fail = true
        · rw [if_pos hf] at hok; cases hok
        · rw [if_neg hf] at hok ⊢
          cases hsy : (if snc then sync_dest dest1 else Except.ok ()) with
          | error e => rw [hsy] at hok; cases hok
          | ok u =>
            cases u
            simp [hmap, Except.map]
  · intro bw hbw m hm hne
    simp only [copy]
    cases hc : consume s.block_size s.dest_fsync_watermark (copy_items H verify s)
        s.dest 0 0 with
    | error e => rw [hc] at hbw; cases hbw
    | ok p =>
      obtain ⟨dest1, bw'⟩ := p
      rw [hc] at hbw
      have : bw' = bw := by
        simpa [Except.map] using hbw
      subst this
      dsimp only
      rw [size_check_mismatch s bw' m hm hne]

/-- C4 witness: part one on the consistent session `sOk`
(2 blocks written, `mapped_cnt = 2`), part two on `sMis`, whose bmap
claims 2 mapped blocks while its single range yields 1. -/
theorem c4_blocks_written_checked_witness :
    ((copy Hsum true true sOk).isOk = true ∧
     (copy Hsum true true sOk).map (fun r => decide (r.1.mapped_cnt = some r.2)) = .ok true) ∧
    ((consume sMis.block_size sMis.dest_fsync_watermark (copy_items Hsum true sMis)
        sMis.dest 0 0).map (fun p => p.2) = .ok 1 ∧
     (size_init sMis 1).mapped_cnt = some 2 ∧ (1 : Int) ≠ 2 ∧
     copy Hsum true true sMis =
       .error (.Error ("wrote " ++ toString (1 : Int) ++ " blocks, but should have "
         ++ toString (2 : Int) ++ " - inconsistent bmap file"))) :=
  ⟨⟨by decide, (c4_blocks_written_checked Hsum true true sOk).1 (by decide)⟩,
   ⟨by decide, by decide, by decide,
    (c4_blocks_written_checked Hsum true true sMis).2 1 (by decide) 2 (by decide) (by decide)⟩⟩

/-- C6: when `copy()` completes normally, the stream positions of the
image, the destination, and (when present) the bmap file are restored to
the values they had when `copy()` was called. -/
theorem c6_positions_restored (H : List Nat → String) (snc verify : Bool) (s : Session)
    (hok : (copy H snc verify s).isOk = true) :
    (copy H snc verify s).map (fun r => r.1.image.pos) = .ok s.image.pos ∧
    (copy H snc verify s).map (fun r => r.1.dest.pos) = .ok s.dest.pos ∧
    (copy H snc verify s).map (fun r => r.1.bmap.map (fun b => b.1)) =
      .ok (s.bmap.map (fun b => b.1)) := by
  simp only [copy] at hok ⊢
  cases hc : consume s.block_size s.dest_fsync_watermark (copy_items H verify s)
      s.dest 0 0 with
  | error e => rw [hc] at hok; cases hok
  | ok p =>
    obtain ⟨dest1, bw⟩ := p
    rw [hc] at hok
    dsimp only at hok ⊢
    cases hsc : size_check s bw with
    | error e => rw [hsc] at hok; cases hok
    | ok s1 =>
      rw [hsc] at hok
      dsimp only at hok ⊢
      obtain ⟨hs1, -⟩ := size_check_ok s bw s1 hsc
      obtain ⟨-, -, hbm⟩ := size_init_frame s bw
      by_cases hf : dest1.flush_fail = true
      · rw [if_pos hf] at hok; cases hok
      · rw [if_neg hf] at hok ⊢
        cases hsy : (if snc then sync_dest dest1 else Except.ok ()) with
        | error e => rw [hsy] at hok; cases hok
        | ok u =>
          cases u
          refine ⟨rfl, rfl, ?_⟩
          dsimp only [Except.map]
          rw [hs1, hbm]

/-- C6 witness: a successful copy of `sOk` (bmap present at saved
position 7). -/
theorem c6_positions_restored_witness :
    ((copy Hsum true true sOk).isOk = true) ∧
    ((copy Hsum true true sOk).map (fun r => r.1.image.pos) = .ok sOk.image.pos ∧
     (copy Hsum true true sOk).map (fun r => r.1.dest.pos) = .ok sOk.dest.pos ∧
     (copy Hsum true true sOk).map (fun r => r.1.bmap.map (fun b => b.1)) =
       .ok (sOk.bmap.map (fun b => b.1))) :=
  ⟨by decide, c6_positions_restored Hsum true true sOk (by decide)⟩

/-- C2: for a manifest range declaring checksum `c`, reachable after a
prefix of good ranges, whose bytes (as held by the image) do not hash to
`c`: `copy` with `verify = true` fails with exactly the ChecksumMismatch
`Error` — produced by the producer, delivered through the queue as an
error record (see `get_data`), and re-raised by the consumer so the whole
operation aborts; while on the identical corrupted input `copy` with
`verify = false` completes without error (provided the remaining ranges
are also readable, the destination is healthy, and the manifest's mapped
count matches the blocks the ranges cover — i.e. nothing else is wrong
with the input). -/
theorem c2_checksum_mismatch_aborts (H : List Nat → String) (snc : Bool) (s : Session)
    (ts1 ts2 : List Triplet) (f l : Int) (c : String)
    (hbs : 0 < s.block_size) (hbb : 0 < s.batch_blocks)
    (hfail : s.image.failAt = none)
    (hw : s.dest.write_fail = false) (hfs : s.dest.fsync_fail = false)
    (hranges : session_ranges s = (ts1 ++ (f, l, some c) :: ts2, none))
    (hgood1 : ∀ t ∈ ts1, range_good H true s.block_size s.image.data t)
    (hf0 : 0 ≤ f) (hfl : f ≤ l)
    (hcov : ((l + 1) * s.block_size).toNat ≤ s.image.data.length)
    (hmis : H (range_window s.image.data s.block_size f l) ≠ c) :
    copy H snc true s =
      .error (checksum_err f l (H (range_window s.image.data s.block_size f l)) c) ∧
    (s.dest.flush_fail = false →
     (∀ t ∈ ts2, range_good H false s.block_size s.image.data t) →
     (size_init s (ranges_len (ts1 ++ (f, l, some c) :: ts2))).mapped_cnt =
       some (ranges_len (ts1 ++ (f, l, some c) :: ts2)) →
     (copy H snc false s).isOk = true) := by
  have himg : s.image = ⟨s.image.data, s.image.pos, none⟩ := by rw [← hfail]
  constructor
  · -- verify = true: the mismatch is forwarded and aborts the copy
    have hitems : copy_items H true s =
        ((ts1.map (range_items s.block_size s.batch_blocks s.image.data)).flatten ++
          range_items s.block_size s.batch_blocks s.image.data (f, l, some c)) ++
        QItem.error
          (checksum_err f l (H (range_window s.image.data s.block_size f l)) c) ::
        [QItem.none_] := by
      unfold copy_items
      rw [hranges]
      dsimp only
      rw [himg]
      rw [get_data_append_good H true s.block_size s.batch_blocks s.image.data
        s.image.pos hbs hbb ts1 ((f, l, some c) :: ts2) none hgood1]
      simp only [get_data]
      rw [produce_range_full H true s.block_size s.batch_blocks s.image.data
        s.image.pos f l (some c) hbs hbb hf0 hfl hcov]
      have hbne : (H (range_window s.image.data s.block_size f l) != c) = true := by
        simp [hmis]
      simp only [Bool.true_and, hbne, if_true]
      rw [List.append_assoc]
    have hok_pre : ∀ i ∈
        (ts1.map (range_items s.block_size s.batch_blocks s.image.data)).flatten ++
          range_items s.block_size s.batch_blocks s.image.data (f, l, some c),
        item_ok s.block_size i := by
      intro i hi
      rcases List.mem_append.mp hi with hi | hi
      · obtain ⟨lst, hlst, hin⟩ := List.mem_flatten.mp hi
        obtain ⟨t, ht, rfl⟩ := List.mem_map.mp hlst
        exact range_items_ok s.block_size s.batch_blocks s.image.data t hbs hbb
          (hgood1 t ht).2.1 i hin
      · exact range_items_ok s.block_size s.batch_blocks s.image.data (f, l, some c)
          hbs hbb hfl i hi
    simp only [copy]
    rw [hitems]
    rw [consume_error_tail s.block_size s.dest_fsync_watermark _ [QItem.none_] _
      s.dest 0 0 hw hfs hok_pre]
  · -- verify = false: the corrupted input completes without error
    intro hflush hgood2 hm
    have hgood1f : ∀ t ∈ ts1, range_good H false s.block_size s.image.data t := by
      intro t ht
      obtain ⟨a, b2, c2, -⟩ := hgood1 t ht
      exact ⟨a, b2, c2, fun hfa => absurd hfa (by simp)⟩
    have hgoodbad : range_good H false s.block_size s.image.data (f, l, some c) :=
      ⟨hf0, hfl, hcov, fun hfa => absurd hfa (by simp)⟩
    have hgoodall : ∀ t ∈ ts1 ++ (f, l, some c) :: ts2,
        range_good H false s.block_size s.image.data t := by
      intro t ht
      rcases List.mem_append.mp ht with ht | ht
      · exact hgood1f t ht
      · rcases List.mem_cons.mp ht with ht | ht
        · rw [ht]; exact hgoodbad
        · exact hgood2 t ht
    have hitems2 : copy_items H false s =
        ((ts1 ++ (f, l, some c) :: ts2).map
          (range_items s.block_size s.batch_blocks s.image.data)).flatten ++
        [QItem.none_] := by
      unfold copy_items
      rw [hranges]
      dsimp only
      rw [himg]
      have happ : ts1 ++ (f, l, some c) :: ts2 =
          (ts1 ++ (f, l, some c) :: ts2) ++ [] := by simp
      rw [happ]
      rw [get_data_append_good H false s.block_size s.batch_blocks s.image.data
        s.image.pos hbs hbb (ts1 ++ (f, l, some c) :: ts2) [] none hgoodall]
      rw [← happ]
      rfl
    have hok_all : ∀ i ∈
        ((ts1 ++ (f, l, some c) :: ts2).map
          (range_items s.block_size s.batch_blocks s.image.data)).flatten,
        item_ok s.block_size i := by
      intro i hi
      obtain ⟨lst, hlst, hin⟩ := List.mem_flatten.mp hi
      obtain ⟨t, ht, rfl⟩ := List.mem_map.mp hlst
      exact range_items_ok s.block_size s.batch_blocks s.image.data t hbs hbb
        (hgoodall t ht).2.1 i hin
    obtain ⟨d1, hcons, hw1, hfl1, hf1⟩ := consume_ranges_ok s.block_size
      s.dest_fsync_watermark
      (((ts1 ++ (f, l, some c) :: ts2).map
        (range_items s.block_size s.batch_blocks s.image.data)).flatten)
      s.dest 0 0 hw hfs hok_all
    have hlen : items_len (((ts1 ++ (f, l, some c) :: ts2).map
        (range_items s.block_size s.batch_blocks s.image.data)).flatten) =
        ranges_len (ts1 ++ (f, l, some c) :: ts2) :=
      items_len_flatten_ranges s.block_size s.batch_blocks s.image.data hbb
        (ts1 ++ (f, l, some c) :: ts2) (fun t ht => (hgoodall t ht).2.1)
    have hbwR : 0 + items_len (((ts1 ++ (f, l, some c) :: ts2).map
        (range_items s.block_size s.batch_blocks s.image.data)).flatten) =
        ranges_len (ts1 ++ (f, l, some c) :: ts2) := by
      rw [hlen]
      ring
    have hsc : size_check s (ranges_len (ts1 ++ (f, l, some c) :: ts2)) =
        .ok (size_init s (ranges_len (ts1 ++ (f, l, some c) :: ts2))) := by
      unfold size_check
      rw [hm]
      dsimp only
      rw [if_neg (by omega :
        ¬(ranges_len (ts1 ++ (f, l, some c) :: ts2) ≠
          ranges_len (ts1 ++ (f, l, some c) :: ts2)))]
    simp only [copy]
    rw [hitems2, hcons, hbwR]
    dsimp only
    rw [hsc]
    dsimp only
    rw [if_neg (by rw [hfl1, hflush]; simp : ¬ d1.flush_fail = true)]
    have hsy : (if snc then sync_dest d1 else Except.ok ()) = Except.ok () := by
      cases snc with
      | false => rfl
      | true => simp [sync_dest, hf1]
    rw [hsy]
    rfl

/-- C2 witness: the corrupted single-range session `sBad` (declared digest
`"99"`, actual `Hsum`-digest of its bytes `"18"`): `copy` with
verification fails with the ChecksumMismatch `Error`, without
verification it succeeds. -/
theorem c2_checksum_mismatch_aborts_witness :
    ((0 : Int) < sBad.block_size ∧ (0 : Int) < sBad.batch_blocks ∧
     sBad.image.failAt = none ∧ sBad.dest.write_fail = false ∧
     sBad.dest.fsync_fail = false ∧
     session_ranges sBad = ([] ++ (0, 1, some "99") :: [], none) ∧
     Hsum (range_window sBad.image.data sBad.block_size 0 1) ≠ "99") ∧
    (copy Hsum true true sBad =
      .error (checksum_err 0 1 (Hsum (range_window sBad.image.data sBad.block_size 0 1)) "99") ∧
     (sBad.dest.flush_fail = false →
      (∀ t ∈ ([] : List Triplet), range_good Hsum false sBad.block_size sBad.image.data t) →
      (size_init sBad (ranges_len ([] ++ (0, 1, some "99") :: []))).mapped_cnt =
        some (ranges_len ([] ++ (0, 1, some "99") :: [])) →
      (copy Hsum true false sBad).isOk = true)) :=
  ⟨⟨by decide, by decide, by decide, by decide, by decide, by decide, by decide⟩,
   c2_checksum_mismatch_aborts Hsum true sBad [] [] 0 1 "99"
     (by decide) (by decide) (by decide) (by decide) (by decide) (by decide)
     (by simp) (by decide) (by decide) (by decide) (by decide)⟩

/-- C1: the claim says `BmapBdevCopy.copy` restores every captured device
setting on EVERY exit path, including normal successful return.  The code
only restores in its `except` clause: on a successful copy of `sOk` from
the healthy device `dOk` (both settings captured: old scheduler `cfq`,
old max_ratio `20`), the device is left with scheduler `noop` and
max_ratio `1` — no restoration happened. -/
theorem c1_no_restore_on_success :
    (bdev_copy (fun _ => "") true true sOk dOk).1.isOk = true ∧
    (tune_block_device dOk).2.1 = some "cfq" ∧
    (tune_block_device dOk).2.2.1 = some "20" ∧
    (bdev_copy (fun _ => "") true true sOk dOk).2.sched = "noop" ∧
    (bdev_copy (fun _ => "") true true sOk dOk).2.ratio_val = "1" ∧
    dOk.sched ≠ "noop" ∧ dOk.ratio_val ≠ "1" := by
  refine ⟨by decide, by decide, by decide, by decide, by decide, by decide, by decide⟩

/-- C3 counterexample: the claim says `parse(document)` itself fails with
`RangeError` when a range has `first > last`; but `_parse_bmap` never
looks at the `<Range>` elements, so parsing a manifest whose only range
is `20-10` succeeds. -/
theorem c3_parse_accepts_bad_range :
    (parse_bmap empty_session doc2010).isOk = true := by decide

/-- C3 amended: the `first > last` check lives in `_get_block_ranges`,
the range iteration used during `copy()`, not in parse: parsing the
manifest with range `20-10` succeeds, iterating its ranges raises the
`Error` "bad range (first > last)", while `10-20` yields
`first=10, last=20` and `5` yields `first=5, last=5`. -/
theorem c3_range_check_is_lazy :
    (parse_bmap empty_session doc2010).isOk = true ∧
    get_block_ranges [⟨some "20-10", none⟩] =
      ([], some (.Error "bad range (first > last): 20-10")) ∧
    parse_range_text "10-20" = .ok (10, 20) ∧
    parse_range_text "5" = .ok (5, 5) :=
  ⟨by decide, by decide, by decide, by decide⟩

/-- C7: a session constructed with no bmap over an uncompressed source of
known size `S` gets `block_size = 4096`,
`blocks_cnt = ⌈S / 4096⌉`, `mapped_cnt = blocks_cnt`,
`mapped_size = image_size = S`, and `mapped_percent = 100`. -/
theorem c7_no_bmap_sizes (S : Int) (_h : 0 ≤ S) :
    (init_no_bmap empty_session S).block_size = 4096 ∧
    (init_no_bmap empty_session S).blocks_cnt = some ⌈(S : ℚ) / 4096⌉ ∧
    (init_no_bmap empty_session S).mapped_cnt = (init_no_bmap empty_session S).blocks_cnt ∧
    (init_no_bmap empty_session S).mapped_size = some S ∧
    (init_no_bmap empty_session S).image_size = some S ∧
    (init_no_bmap empty_session S).mapped_percent = some 100 := by
  have hceil : ⌈(S : ℚ) / 4096⌉ = (S + 4095) / 4096 := by
    rw [Int.ceil_eq_iff]
    constructor
    · rw [lt_div_iff₀ (by norm_num : (0:ℚ) < 4096)]
      have h3 : ((S + 4095) / 4096 - 1) * 4096 < S := by omega
      exact_mod_cast h3
    · rw [div_le_iff₀ (by norm_num : (0:ℚ) < 4096)]
      have h4 : S ≤ ((S + 4095) / 4096) * 4096 := by
        omega
      exact_mod_cast h4
  have hdiv : pydiv (S + 4096 - 1) 4096 = (S + 4095) / 4096 := by
    unfold pydiv
    rw [Int.fdiv_eq_ediv _ (by norm_num : (0:Int) ≤ 4096)]
    omega
  refine ⟨rfl, ?_, rfl, rfl, rfl, rfl⟩
  show some (pydiv (S + 4096 - 1) 4096) = some ⌈(S : ℚ) / 4096⌉
  rw [hdiv, hceil]

/-- C7 witness at `S = 10000` (3 blocks). -/
theorem c7_no_bmap_sizes_witness :
    (0 ≤ (10000 : Int)) ∧
    ((init_no_bmap empty_session 10000).block_size = 4096 ∧
     (init_no_bmap empty_session 10000).blocks_cnt = some ⌈((10000 : Int) : ℚ) / 4096⌉ ∧
     (init_no_bmap empty_session 10000).mapped_cnt =
       (init_no_bmap empty_session 10000).blocks_cnt ∧
     (init_no_bmap empty_session 10000).mapped_size = some 10000 ∧
     (init_no_bmap empty_session 10000).image_size = some 10000 ∧
     (init_no_bmap empty_session 10000).mapped_percent = some 100) :=
  ⟨by norm_num, c7_no_bmap_sizes 10000 (by norm_num)⟩

/-- C9 counterexample: the claim says a failure while restoring the
scheduler does not prevent the attempt to restore max_ratio.  With both
settings captured and the scheduler restore write failing, the function
returns early: no max_ratio write is attempted and the device state is
unchanged. -/
theorem c9_sched_fail_skips_max_ratio :
    restore_bdev_settings dStuck (some "cfq") (some "20") = (dStuck, true, false) := rfl

/-- C9 amended: a tuning-step IOError never makes the copy fail (the
block-device copy returns exactly what the plain copy returns whenever
tuning does not hit the bracket-regex `AttributeError`); restoration
never raises; the scheduler restore is attempted iff a scheduler value
was captured; but the max_ratio restore is attempted iff a max_ratio
value was captured AND the scheduler restore did not fail first (a
scheduler IOError returns early, skipping it). -/
theorem c9_tuning_best_effort (d : Bdev) (old_sched old_ratio_v : Option String)
    (H : List Nat → String) (snc verify : Bool) (s : Session)
    (hre : d.sched_tune_fail = true ∨ (extract_bracketed d.sched).isSome = true) :
    (restore_bdev_settings d old_sched old_ratio_v).2.1 = old_sched.isSome ∧
    (restore_bdev_settings d old_sched old_ratio_v).2.2 =
      (old_ratio_v.isSome && (old_sched.isNone || !d.sched_restore_fail)) ∧
    (bdev_copy H snc verify s d).1 = copy H snc verify s := by
  refine ⟨?_, ?_, ?_⟩
  · rcases old_sched with _ | v <;> rcases old_ratio_v with _ | r <;>
      cases hsf : d.sched_restore_fail <;> cases hrf : d.ratio_restore_fail <;>
      simp [restore_bdev_settings, hsf, hrf]
  · rcases old_sched with _ | v <;> rcases old_ratio_v with _ | r <;>
      cases hsf : d.sched_restore_fail <;> cases hrf : d.ratio_restore_fail <;>
      simp [restore_bdev_settings, hsf, hrf]
  · unfold bdev_copy tune_block_device
    rcases hre with hre | hre
    · rw [hre]
      simp only [if_true]
      cases copy H snc verify s <;> rfl
    · cases hx : extract_bracketed d.sched with
      | none => rw [hx] at hre; simp at hre
      | some v =>
        cases htf : d.sched_tune_fail with
        | true =>
          simp only [htf, if_true]
          cases copy H snc verify s <;> rfl
        | false =>
          simp only [htf, Bool.false_eq_true, if_false, hx]
          cases htr : d.ratio_tune_fail <;>
            simp only [htr, if_true, Bool.false_eq_true, if_false] <;>
            cases copy H snc verify s <;> rfl

/-- C9 witness: healthy device `dOk`, both settings captured, successful
base copy of `sOk`. -/
theorem c9_tuning_best_effort_witness :
    ((dOk.sched_tune_fail = true ∨ (extract_bracketed dOk.sched).isSome = true) ∧
     ((restore_bdev_settings dOk (some "cfq") (some "20")).2.1 = (some "cfq").isSome ∧
      (restore_bdev_settings dOk (some "cfq") (some "20")).2.2 =
        ((some "20").isSome && ((some "cfq").isNone || !dOk.sched_restore_fail)) ∧
      (bdev_copy (fun _ => "") true true sOk dOk).1 = copy (fun _ => "") true true sOk)) :=
  ⟨Or.inr rfl,
   c9_tuning_best_effort dOk (some "cfq") (some "20") (fun _ => "") true true sOk
     (Or.inr rfl)⟩

/-- C10 counterexample: the claim says every failure raised by the public
operations is an instance of the module's single `Error` class.  But a
well-formed manifest lacking the root `version` attribute makes
`_parse_bmap` evaluate `int("None")`, and the resulting `ValueError`
escapes unwrapped: session construction fails with an exception that is
not an `Error` instance. -/
theorem c10_value_error_escapes :
    parse_bmap empty_session docNoVersion =
      .error (.valueError "invalid literal for int with base 10: None") ∧
    isBmapError (.valueError "invalid literal for int with base 10: None") = false :=
  ⟨by decide, by decide⟩

/-- C10 amended: every failure the module deliberately raises — all of
the named kinds: ParseError, VersionError, RangeError, ChecksumMismatch,
SizeMismatch, CapacityError, SyncError — is an instance of the single
class `Error` carrying only a message, and the kinds are distinguishable
only by message text (the seven messages below are pairwise distinct);
however, some malformed manifests escape as Python built-in exceptions
(see the counterexample). -/
theorem c10_single_error_class :
    parse_bmap empty_session (.malformed "syntax error") =
      .error (.Error "cannot parse the bmap file which should be a proper XML file: syntax error") ∧
    parse_bmap empty_session
        (.wellFormed ⟨some "2.0", some "4096", some "100", some "20", []⟩) =
      .error (.Error "only bmap format version up to 1 is supported, version 2 is not supported") ∧
    parse_range_text "20-10" = .error (.Error "bad range (first > last): 20-10") ∧
    copy Hsum true true sBad =
      .error (.Error "checksum mismatch for blocks range 0-1: calculated 18, should be 99") ∧
    copy Hsum true true sMis =
      .error (.Error "wrote 1 blocks, but should have 2 - inconsistent bmap file") ∧
    check_capacity (some 100) 50 =
      .error (.Error ("the image file has size 100 and it will not fit the block device which has 50 capacity")) ∧
    sync_dest ⟨[], 0, false, false, true⟩ =
      .error (.Error "cannot synchronize the destination file") ∧
    List.Pairwise (· ≠ ·)
      ["cannot parse the bmap file which should be a proper XML file: syntax error",
       "only bmap format version up to 1 is supported, version 2 is not supported",
       "bad range (first > last): 20-10",
       "checksum mismatch for blocks range 0-1: calculated 18, should be 99",
       "wrote 1 blocks, but should have 2 - inconsistent bmap file",
       "the image file has size 100 and it will not fit the block device which has 50 capacity",
       "cannot synchronize the destination file"] :=
  ⟨by decide, by decide, by decide, by decide, by decide, by decide, by decide, by decide⟩

end BmapCopyModel
